import Mathlib

/-!
Verification development for the KiCad schematic helper library
(`scripts/kicad_sch_helpers.py`).  The Python source is shallowly embedded:
real-valued coordinates are modelled as `ℚ` (Python floats on the inputs of
interest are decimal literals, and every arithmetic step of the source is
exact on them), Python strings are `List Char`, fallible functions return
`Except`, and loops are modelled with explicit fuel so that every definition
is executable and proofs can evaluate them.
-/

namespace KicadSch

/-! ## Grid and coordinate utilities (`snap`, `pin_transform`, `pin_abs`) -/

/-- `GRID = 1.27`, the KiCad schematic grid constant. -/
def GRID : ℚ := 1.27

/-- Python's built-in `round` (banker's rounding, round-half-to-even),
as used by `snap`. -/
def pyround (q : ℚ) : ℤ :=
  let n : ℤ := ⌊q⌋
  if q - n < 1/2 then n
  else if 1/2 < q - n then n + 1
  else if n % 2 = 0 then n else n + 1

/-- `snap(v) = round(v / GRID) * GRID` (source line 63-66). -/
def snap (v : ℚ) : ℚ := pyround (v / GRID) * GRID

/-- The error raised by `pin_transform` for an unsupported rotation
(`ValueError("Rotation must be 0, 90, 180, or 270...")`). -/
inductive TransformError where
  | invalidRotation
deriving DecidableEq

/-- `pin_transform` (source lines 74-96): the four-quadrant rotation table,
raising for any rotation outside `{0, 90, 180, 270}`. -/
def pin_transform (pin_x pin_y : ℚ) (rotation : ℤ) :
    Except TransformError (ℚ × ℚ) :=
  if rotation = 0 then .ok (pin_x, -pin_y)
  else if rotation = 90 then .ok (pin_y, pin_x)
  else if rotation = 180 then .ok (-pin_x, pin_y)
  else if rotation = 270 then .ok (-pin_y, -pin_x)
  else .error .invalidRotation

/-- `pin_abs` (source lines 99-122): negate `px` when `mirror_y`, transform,
add to the symbol position and snap both components. -/
def pin_abs (sx sy px py : ℚ) (rotation : ℤ) (mirror_y : Bool) :
    Except TransformError (ℚ × ℚ) :=
  let px' := if mirror_y then -px else px
  match pin_transform px' py rotation with
  | .error e => .error e
  | .ok (dx, dy) => .ok (snap (sx + dx), snap (sy + dy))

/-! ## Block scanner and structural editor errors -/

/-- The `ValueError`s raised by the block scanner and the structural-edit
helpers (`find_block`, `remove_by_uuid`). -/
inductive EditError where
  | notABlockStart
  | unbalanced
  | indexError
  | keyNotFound
  | parentBlockNotFound
  | keyNotInBlock
deriving DecidableEq

instance {ε α : Type} [DecidableEq ε] [DecidableEq α] :
    DecidableEq (Except ε α) := fun a b =>
  match a, b with
  | .ok x, .ok y =>
    if h : x = y then .isTrue (by rw [h]) else .isFalse (fun he => by cases he; exact h rfl)
  | .ok _, .error _ => .isFalse (fun he => by cases he)
  | .error _, .ok _ => .isFalse (fun he => by cases he)
  | .error x, .error y =>
    if h : x = y then .isTrue (by rw [h]) else .isFalse (fun he => by cases he; exact h rfl)

/-- The scanning loop of `find_block` (source lines 982-997): walk the
document from `i`, toggling the in-string flag on an unescaped quote,
counting delimiter depth outside strings, and returning the slice
`content[start_pos : i+1]` when the depth returns to `0`.  The fuel argument
counts the characters left to scan; `find_block` passes
`content.length - start_pos`, so fuel runs out exactly when the Python loop
index would reach the end of the text (both cases are `UnbalancedBlock`). -/
def find_block_loop (content : List Char) :
    ℕ → ℕ → ℤ → Bool → ℕ → Except EditError (List Char × ℕ)
  | 0, _, _, _, _ => .error .unbalanced
  | fuel+1, i, depth, in_string, start_pos =>
    if h : i < content.length then
      let c := content.get ⟨i, h⟩
      if c = '"' ∧ (i = 0 ∨ content.getD (i-1) ' ' ≠ '\\') then
        find_block_loop content fuel (i+1) depth (!in_string) start_pos
      else if ¬in_string ∧ c = '(' then
        find_block_loop content fuel (i+1) (depth+1) in_string start_pos
      else if ¬in_string ∧ c = ')' then
        if depth - 1 = 0 then .ok ((content.drop start_pos).take (i+1-start_pos), i+1)
        else find_block_loop content fuel (i+1) (depth-1) in_string start_pos
      else
        find_block_loop content fuel (i+1) depth in_string start_pos
    else .error .unbalanced

/-- `find_block` (source lines 958-997): balanced-block scanner.
`indexError` models the `IndexError` Python raises on `content[start_pos]`
when `start_pos` is out of range. -/
def find_block (content : List Char) (start_pos : ℕ) :
    Except EditError (List Char × ℕ) :=
  if h : start_pos < content.length then
    if content.get ⟨start_pos, h⟩ ≠ '(' then .error .notABlockStart
    else find_block_loop content (content.length - start_pos) start_pos 0 false start_pos
  else .error .indexError

/-- The quote-safety example document of the spec: `(symbol "a)b" (pin))`. -/
def exC2 : List Char := "(symbol \"a)b\" (pin))".toList

/-! ## Python string primitives (`in`, `str.replace`, `str.count`) -/

/-- Python's substring test `needle in hay`. -/
def isSubstringOf (needle : List Char) : List Char → Bool
  | [] => needle.isEmpty
  | c :: rest => needle.isPrefixOf (c :: rest) || isSubstringOf needle rest

/-- Python's `hay.replace(needle, repl)`: replace every non-overlapping
occurrence, scanning left to right.  Fuel ≥ `hay.length` makes the recursion
total; all call sites in the source pass a non-empty `needle` (every pattern
is wrapped in literal quote/parenthesis characters), for which the fuel is
sufficient and the guard `needle ≠ []` never fires. -/
def replaceAll : ℕ → List Char → List Char → List Char → List Char
  | 0, _, _, hay => hay
  | f+1, needle, repl, hay =>
    if needle.isPrefixOf hay ∧ needle ≠ [] then
      repl ++ replaceAll f needle repl (hay.drop needle.length)
    else
      match hay with
      | [] => []
      | c :: rest => c :: replaceAll f needle repl rest

/-- Python's `hay.count(needle)`: count non-overlapping occurrences, scanning
left to right (same scan as `replaceAll`). -/
def countOccur : ℕ → List Char → List Char → ℕ
  | 0, _, _ => 0
  | f+1, needle, hay =>
    if needle.isPrefixOf hay ∧ needle ≠ [] then
      1 + countOccur f needle (hay.drop needle.length)
    else
      match hay with
      | [] => 0
      | _ :: rest => countOccur f needle rest

/-! ## `replace_lib_id` (source lines 1130-1166) -/

/-- The attribute-value pattern `(lib_id "{id}")`. -/
def lib_id_pat (i : List Char) : List Char :=
  "(lib_id \"".toList ++ i ++ "\")".toList

/-- The definition-key pattern `(symbol "{id}"` (no closing parenthesis). -/
def sym_key_pat (i : List Char) : List Char :=
  "(symbol \"".toList ++ i ++ ['"']

/-- `replace_lib_id` (source lines 1130-1166): count-and-replace the
`(lib_id "old")` attribute occurrences, then, if the `(symbol "old"`
definition-key pattern occurs in the updated text, replace it too and add
exactly `1` to the count. -/
def replace_lib_id (content old_id new_id : List Char) : List Char × ℕ :=
  let old_str := lib_id_pat old_id
  let new_str := lib_id_pat new_id
  let c := countOccur content.length old_str content
  let content1 := replaceAll content.length old_str new_str content
  let old_sym := sym_key_pat old_id
  let new_sym := sym_key_pat new_id
  if isSubstringOf old_sym content1 then
    (replaceAll content1.length old_sym new_sym content1, c + 1)
  else (content1, c)

/-- A document in which the definition-key pattern `(symbol "A"` occurs
twice. -/
def exC9 : List Char := "(symbol \"A\" x)(symbol \"A\" y)".toList

/-- `exC9` after `replace_lib_id(·, "A", "B")`. -/
def exC9' : List Char := "(symbol \"B\" x)(symbol \"B\" y)".toList

/-! ## `fix_annotation_suffixes` (source lines 1193-1232) -/

/-- One attempt of the regex `\(reference "([^"]+)"\)` anchored at the head of
`cs`; on success returns the capture and the rest of the text after the
match. -/
def litM : List Char → List Char → Option (List Char)
  | [], cs => some cs
  | _ :: _, [] => none
  | p :: ps, c :: cs => if c = p then litM ps cs else none

/-- Anchored match of `\(reference "([^"]+)"\)`. -/
def matchRefAt (cs : List Char) : Option (List Char × List Char) :=
  match litM "(reference \"".toList cs with
  | none => none
  | some cs1 =>
    let name := cs1.takeWhile (fun c => ¬(c = '"'))
    if name.isEmpty then none
    else
      match cs1.dropWhile (fun c => ¬(c = '"')) with
      | '"' :: ')' :: rest => some (name, rest)
      | _ => none

/-- `re.findall(r'\(reference "([^"]+)"\)', content)`: scan left to right,
collecting non-overlapping matches. -/
def findRefs : ℕ → List Char → List (List Char)
  | 0, _ => []
  | f+1, cs =>
    match matchRefAt cs with
    | some (name, rest) => name :: findRefs f rest
    | none =>
      match cs with
      | [] => []
      | _ :: t => findRefs f t

/-- Python string `<` (lexicographic by code point). -/
def lexLt : List Char → List Char → Bool
  | [], [] => false
  | [], _ :: _ => true
  | _ :: _, [] => false
  | a :: as, b :: bs => if a < b then true else if b < a then false else lexLt as bs

/-- Insert into a sorted duplicate-free list, keeping it sorted and
duplicate-free. -/
def insertSorted (x : List Char) : List (List Char) → List (List Char)
  | [] => [x]
  | y :: ys =>
    if lexLt x y then x :: y :: ys
    else if x = y then y :: ys
    else y :: insertSorted x ys

/-- Python's `sorted(set(l))` for lists of strings. -/
def sortedDedup (l : List (List Char)) : List (List Char) :=
  l.foldr insertSorted []

/-- Python `r.startswith('#')`. -/
def startsWithHash : List Char → Bool
  | '#' :: _ => true
  | _ => false

/-- Python `r[-1].isdigit()` (and `False` on the empty string). -/
def lastIsDigit (r : List Char) : Bool :=
  match r.getLast? with
  | some c => c.isDigit
  | none => false

/-- The instance-path pattern `(reference "{ref}")`. -/
def ref_inst_pat (r : List Char) : List Char :=
  "(reference \"".toList ++ r ++ "\")".toList

/-- The property pattern `"Reference" "{ref}"`. -/
def ref_prop_pat (r : List Char) : List Char :=
  "\"Reference\" \"".toList ++ r ++ ['"']

/-- `fix_annotation_suffixes` (source lines 1193-1232; the Lean name drops
nothing but letters of the Python name): collect all `(reference "…")`
captures, drop the `#`-prefixed ones, keep the uniqued sorted list of those
not ending in a digit, and for each append `"1"` in both the
`"Reference" "…"` property position and the `(reference "…")` instance
position. -/
def fix_annot_suffixes (content : List Char) : List Char × List (List Char) :=
  let refs := findRefs content.length content
  let visible := refs.filter (fun r => !startsWithHash r)
  let no_digit := sortedDedup (visible.filter (fun r => !r.isEmpty && !lastIsDigit r))
  let content' := no_digit.foldl (fun acc ref =>
    let acc1 := replaceAll acc.length (ref_prop_pat ref) (ref_prop_pat (ref ++ ['1'])) acc
    replaceAll acc1.length (ref_inst_pat ref) (ref_inst_pat (ref ++ ['1'])) acc1) content
  (content', no_digit)

/-- The identifier-renumbering example document: identifiers `C_RX1B_N`,
`R1`, `J_PWR`, each in both syntactic positions, with `J_PWR` occurring in a
second instance position to exercise the dedup step. -/
def exC8 : List Char :=
  ("(property \"Reference\" \"C_RX1B_N\" (at 0 0 0))\n(reference \"C_RX1B_N\")\n" ++
   "(property \"Reference\" \"R1\" (at 0 0 0))\n(reference \"R1\")\n" ++
   "(property \"Reference\" \"J_PWR\" (at 0 0 0))\n(reference \"J_PWR\")\n" ++
   "(reference \"J_PWR\")").toList

/-- `exC8` after `fix_annotation_suffixes`. -/
def exC8' : List Char :=
  ("(property \"Reference\" \"C_RX1B_N1\" (at 0 0 0))\n(reference \"C_RX1B_N1\")\n" ++
   "(property \"Reference\" \"R1\" (at 0 0 0))\n(reference \"R1\")\n" ++
   "(property \"Reference\" \"J_PWR1\" (at 0 0 0))\n(reference \"J_PWR1\")\n" ++
   "(reference \"J_PWR1\")").toList

/-! ## Symbol library parser (`SymbolLibrary._parse`, source lines 198-239)

The pin regex of the source,

```
\(pin\s+(\w+)\s+\w+\s+\(at\s+([-\d.]+)\s+([-\d.]+)\s+(\d+)\)\s+
\(length\s+([-\d.]+)\)\s+\(name\s+"([^"]*)".*?\)\s+\(number\s+"([^"]*)".*?\)\)
```

(with `re.DOTALL`), is embedded as a hand-rolled matcher with the same
semantics: every character class in the pattern is followed by a disjoint
requirement, so the greedy pieces are deterministic maximal runs, and the two
lazy `.*?` gaps are the only search points — they expand one character at a
time until the rest of the pattern matches, which is exactly the
backtracking order of the regex engine. -/

/-- Python ASCII `\s`. -/
def isSpaceChar (c : Char) : Bool :=
  c == ' ' || c == '\t' || c == '\n' || c == '\r' || c == '\x0b' || c == '\x0c'

/-- Python ASCII `\w`. -/
def isWordChar (c : Char) : Bool := c.isAlphanum || c == '_'

/-- The character class `[-\d.]`. -/
def isNumLike (c : Char) : Bool := c.isDigit || c == '-' || c == '.'

/-- Greedy `c+` for a character class: the maximal non-empty run. -/
def many1 (f : Char → Bool) (cs : List Char) : Option (List Char × List Char) :=
  if (cs.takeWhile f).isEmpty then none else some (cs.takeWhile f, cs.dropWhile f)

/-- Greedy `\s+`. -/
def ws1 (cs : List Char) : Option (List Char) :=
  match many1 isSpaceChar cs with
  | none => none
  | some (_, rest) => some rest

/-- Python `int()` on a `\d+` capture. -/
def parseNat (ds : List Char) : ℕ := ds.foldl (fun a c => a * 10 + (c.toNat - 48)) 0

/-- Value of an unsigned decimal capture (integer part, optional `.`,
fraction part). -/
def parseDecPos (cs : List Char) : ℚ :=
  let ip := cs.takeWhile Char.isDigit
  match cs.dropWhile Char.isDigit with
  | '.' :: rest =>
    let fp := rest.takeWhile Char.isDigit
    (parseNat ip : ℚ) + (parseNat fp : ℚ) / (10 : ℚ) ^ fp.length
  | _ => (parseNat ip : ℚ)

/-- Python `float()` on a `[-\d.]+` capture, modelled exactly (as a rational)
on the well-formed decimal literals the source documents contain; on a
malformed capture (where Python would raise `ValueError`) it returns a
best-effort value, which no theorem below relies on. -/
def parseDec (cs : List Char) : ℚ :=
  match cs with
  | '-' :: rest => -(parseDecPos rest)
  | _ => parseDecPos cs

/-- The `PinDef` dataclass (source lines 129-138). -/
structure PinDef where
  name : List Char
  number : List Char
  x : ℚ
  y : ℚ
  angle : ℤ
  length : ℚ
  pin_type : List Char

/-- The seven capture groups of one pin-regex match. -/
structure PinFields where
  ptype : List Char
  xs : List Char
  ys : List Char
  angs : List Char
  lens : List Char
  nm : List Char
  num : List Char
deriving DecidableEq

/-- The `PinDef(...)` constructor call of `_parse` (source lines 229-234):
groups 6/7 are name/number, 2/3 the position, 4 the angle, 5 the length,
1 the pin type. -/
def mkPinDef (g : PinFields) : PinDef :=
  { name := g.nm, number := g.num, x := parseDec g.xs, y := parseDec g.ys,
    angle := (parseNat g.angs : ℤ), length := parseDec g.lens, pin_type := g.ptype }

/-- The lazy gap `.*?\)\)` at the end of the pin pattern: advance to the first
position where two literal close-delimiters match. -/
def lazyClose : ℕ → List Char → Option (List Char)
  | 0, _ => none
  | f+1, cs =>
    match litM [')', ')'] cs with
    | some rest => some rest
    | none =>
      match cs with
      | [] => none
      | _ :: t => lazyClose f t

/-- The lazy gap `.*?\)\s+\(number\s+"([^"]*)"` followed by `.*?\)\)`:
advance to the first position from which the entire rest of the pattern
matches (regex-engine backtracking order). -/
def lazyNumber : ℕ → List Char → Option (List Char × List Char)
  | 0, _ => none
  | f+1, cs =>
    match (do
      let cs1 ← litM [')'] cs
      let cs2 ← ws1 cs1
      let cs3 ← litM "(number".toList cs2
      let cs4 ← ws1 cs3
      let cs5 ← litM ['"'] cs4
      let num := cs5.takeWhile (fun c => ¬(c = '"'))
      let cs6 ← litM ['"'] (cs5.dropWhile (fun c => ¬(c = '"')))
      let cs7 ← lazyClose (cs6.length + 1) cs6
      pure (num, cs7) : Option (List Char × List Char)) with
    | some r => some r
    | none =>
      match cs with
      | [] => none
      | _ :: t => lazyNumber f t

/-- The pattern piece `\(pin\s+(\w+)\s+\w+\s+`: returns group 1 and the
rest. -/
def pinMatchHead (cs : List Char) : Option (List Char × List Char) := do
  let cs1 ← litM "(pin".toList cs
  let cs2 ← ws1 cs1
  let (ptype, cs3) ← many1 isWordChar cs2
  let cs4 ← ws1 cs3
  let (_, cs5) ← many1 isWordChar cs4
  let cs6 ← ws1 cs5
  pure (ptype, cs6)

/-- The pattern piece `\(at\s+([-\d.]+)\s+([-\d.]+)\s+(\d+)\)\s+`: returns
groups 2, 3, 4 and the rest. -/
def pinMatchPos (cs : List Char) :
    Option (List Char × List Char × List Char × List Char) := do
  let cs7 ← litM "(at".toList cs
  let cs8 ← ws1 cs7
  let (xs, cs9) ← many1 isNumLike cs8
  let cs10 ← ws1 cs9
  let (ys, cs11) ← many1 isNumLike cs10
  let cs12 ← ws1 cs11
  let (angs, cs13) ← many1 Char.isDigit cs12
  let cs14 ← litM [')'] cs13
  let cs15 ← ws1 cs14
  pure (xs, ys, angs, cs15)

/-- The pattern piece `\(length\s+([-\d.]+)\)\s+`: returns group 5 and the
rest. -/
def pinMatchLen (cs : List Char) : Option (List Char × List Char) := do
  let cs16 ← litM "(length".toList cs
  let cs17 ← ws1 cs16
  let (lens, cs18) ← many1 isNumLike cs17
  let cs19 ← litM [')'] cs18
  let cs20 ← ws1 cs19
  pure (lens, cs20)

/-- The pattern piece `\(name\s+"([^"]*)"`: returns group 6 and the rest. -/
def pinMatchName (cs : List Char) : Option (List Char × List Char) := do
  let cs21 ← litM "(name".toList cs
  let cs22 ← ws1 cs21
  let cs23 ← litM ['"'] cs22
  let nm := cs23.takeWhile (fun c => ¬(c = '"'))
  let cs24 ← litM ['"'] (cs23.dropWhile (fun c => ¬(c = '"')))
  pure (nm, cs24)

/-- Anchored attempt of the full pin pattern at the head of `cs`. -/
def matchPinAt (cs : List Char) : Option (PinFields × List Char) := do
  let (ptype, cs6) ← pinMatchHead cs
  let (xs, ys, angs, cs15) ← pinMatchPos cs6
  let (lens, cs20) ← pinMatchLen cs15
  let (nm, cs24) ← pinMatchName cs20
  let (num, rest) ← lazyNumber (cs24.length + 1) cs24
  pure (⟨ptype, xs, ys, angs, lens, nm, num⟩, rest)

/-- `pin_pattern.finditer`: scan positions left to right, collecting
non-overlapping matches. -/
def findPinFields : ℕ → List Char → List PinFields
  | 0, _ => []
  | f+1, cs =>
    match matchPinAt cs with
    | some (g, rest) => g :: findPinFields f rest
    | none =>
      match cs with
      | [] => []
      | _ :: t => findPinFields f t

/-- All pins recovered from a block's text. -/
def findPins (block : List Char) : List PinDef :=
  (findPinFields (block.length + 1) block).map mkPinDef

/-- Python `str.strip()`. -/
def stripLine (l : List Char) : List Char :=
  ((l.dropWhile isSpaceChar).reverse.dropWhile isSpaceChar).reverse

/-- Python `content.split('\n')`. -/
def splitOnNl : List Char → List (List Char)
  | [] => [[]]
  | c :: rest =>
    if c = '\n' then [] :: splitOnNl rest
    else
      match splitOnNl rest with
      | [] => [[c]]
      | l :: ls => (c :: l) :: ls

/-- `re.match(r'^\(symbol\s+"([^"]+)"', line)`: anchored prefix match
returning the (non-empty) quoted capture. -/
def matchSymbolLine (l : List Char) : Option (List Char) := do
  let cs1 ← litM "(symbol".toList l
  let cs2 ← ws1 cs1
  let cs3 ← litM ['"'] cs2
  let nm := cs3.takeWhile (fun c => ¬(c = '"'))
  if nm.isEmpty then none
  else
    let _ ← litM ['"'] (cs3.dropWhile (fun c => ¬(c = '"')))
    pure nm

/-- `re.search(r'_\d+_\d+$', name)`: the name ends in `_<digits>_<digits>`.
Checked from the reversed name: a maximal non-empty digit run, an
underscore, another maximal non-empty digit run, another underscore. -/
def isSubPartName (nm : List Char) : Bool :=
  let r := nm.reverse
  if (r.takeWhile Char.isDigit).isEmpty then false
  else
    match r.dropWhile Char.isDigit with
    | '_' :: r3 =>
      if (r3.takeWhile Char.isDigit).isEmpty then false
      else
        match r3.dropWhile Char.isDigit with
        | '_' :: _ => true
        | _ => false
    | _ => false

/-- Python `line.count(c)` for a single character. -/
def countChar (c : Char) (l : List Char) : ℕ := (l.filter (fun x => x == c)).length

/-- `line.count('(') - line.count(')')`. -/
def pcount (l : List Char) : ℤ := (countChar '(' l : ℤ) - (countChar ')' l : ℤ)

/-- The inner block-collection loop of `_parse` (source lines 220-224):
keep taking (stripped) lines while the running depth is positive.  Returns
the collected block lines and the remaining lines. -/
def collectRest : ℕ → List (List Char) → ℤ → List (List Char) × List (List Char)
  | 0, ls, _ => ([], ls)
  | f+1, ls, depth =>
    if depth ≤ 0 then ([], ls)
    else
      match ls with
      | [] => ([], [])
      | l :: rest =>
        let s := stripLine l
        let (tk, rem) := collectRest f rest (depth + pcount s)
        (s :: tk, rem)

/-- Python `'\n'.join(...)`. -/
def joinNl : List (List Char) → List Char
  | [] => []
  | [l] => l
  | l :: ls => l ++ '\n' :: joinNl ls

/-- The `SymbolDef` dataclass (source lines 141-145). -/
structure SymbolDef where
  name : List Char
  pins : List PinDef

/-- A symbol definition at the capture-group level, before the numeric
conversion of each pin match. -/
structure SymbolDefF where
  name : List Char
  pins : List PinFields
deriving DecidableEq

/-- Python dict assignment `m[k] = v` on an association list:
overwrite in place if the key exists, else append. -/
def insertA {α : Type} (m : List (List Char × α)) (k : List Char) (v : α) :
    List (List Char × α) :=
  match m with
  | [] => [(k, v)]
  | (k', v') :: rest => if k' = k then (k, v) :: rest else (k', v') :: insertA rest k v

/-- The top-level line scan of `_parse` (source lines 209-239), at the
capture-group level: for each line, try the symbol-header pattern; skip
sub-part names (`_<int>_<int>` suffix); otherwise collect the whole block by
per-line delimiter counting, extract every pin match from the joined block
text, and record the definition if the pin list is non-empty; then continue
after the block. -/
def parseLinesF :
    ℕ → List (List Char) → List (List Char × SymbolDefF) → List (List Char × SymbolDefF)
  | 0, _, syms => syms
  | _+1, [], syms => syms
  | f+1, l :: rest, syms =>
    let s := stripLine l
    match matchSymbolLine s with
    | some nm =>
      if isSubPartName nm then parseLinesF f rest syms
      else
        let (blockLines, remaining) := collectRest rest.length rest (pcount s)
        let block := joinNl (s :: blockLines)
        let pins := findPinFields (block.length + 1) block
        let syms' := if pins.isEmpty then syms else insertA syms nm ⟨nm, pins⟩
        parseLinesF f remaining syms'
    | none => parseLinesF f rest syms

/-- Numeric conversion of a scanned definition: apply the `PinDef(...)`
constructor to each match's groups.  In the source this happens inside the
scan loop (lines 228-234), but the only use the scan makes of the pin list is
the non-emptiness test, which commutes with `map`. -/
def toSymbolDef (d : SymbolDefF) : SymbolDef := ⟨d.name, d.pins.map mkPinDef⟩

/-- `SymbolLibrary._parse` (source lines 198-239). -/
def SymbolLibrary_parse (content : List Char) : List (List Char × SymbolDef) :=
  let ls := splitOnNl content
  (parseLinesF ls.length ls []).map (fun kv => (kv.1, toSymbolDef kv.2))

/-- Python dict membership/lookup on the association list. -/
def lookupA {α : Type} (m : List (List Char × α)) (k : List Char) : Option α :=
  match m with
  | [] => none
  | (k', v) :: rest => if k' = k then some v else lookupA rest k

/-- `name.split(':', 1)[1]`: everything after the first colon. -/
def afterColon (n : List Char) : List Char := (n.dropWhile (fun c => ¬(c = ':'))).drop 1

/-- `SymbolLibrary.get` (source lines 241-249): exact match first, then
retry without the `namespace:` qualifier. -/
def SymbolLibrary_get (lib : List (List Char × SymbolDef)) (name : List Char) :
    Option SymbolDef :=
  match lookupA lib name with
  | some d => some d
  | none => if name.contains ':' then lookupA lib (afterColon name) else none

/-- The top-level-filtering example: a definition `Foo` containing nested
sub-part blocks `Foo_0_1` (drawing only) and `Foo_1_1` (two pins). -/
def exC3 : List Char :=
  ("(symbol \"Foo\"\n" ++
   "  (symbol \"Foo_0_1\"\n" ++
   "    (rectangle (start 0 0) (end 1 1))\n" ++
   "  )\n" ++
   "  (symbol \"Foo_1_1\"\n" ++
   "    (pin passive line (at 0 2.54 270) (length 1.27) " ++
     "(name \"A\" (effects)) (number \"1\" (effects)))\n" ++
   "    (pin input line (at -5.08 0 0) (length 2.54) " ++
     "(name \"B\" (effects)) (number \"2\" (effects)))\n" ++
   "  )\n" ++
   ")").toList

/-- The capture groups of the first pin of `exC3`. -/
def exC3_pinA : PinFields :=
  ⟨"passive".toList, "0".toList, "2.54".toList, "270".toList, "1.27".toList,
   "A".toList, "1".toList⟩

/-- The capture groups of the second pin of `exC3`. -/
def exC3_pinB : PinFields :=
  ⟨"input".toList, "-5.08".toList, "0".toList, "0".toList, "2.54".toList,
   "B".toList, "2".toList⟩

/-! ## Structural editor (`remove_block_with_whitespace`, `remove_by_uuid`,
source lines 1000-1127) -/

/-- Python `content.find(needle)`: index of the leftmost occurrence. -/
def findSub (needle : List Char) : List Char → Option ℕ
  | [] => if needle.isEmpty then some 0 else none
  | c :: rest =>
    if needle.isPrefixOf (c :: rest) then some 0
    else (findSub needle rest).map (· + 1)

/-- Python `content.rfind(needle, 0, bound)`: the largest start position of an
occurrence lying entirely inside `content[0:bound]`. -/
def rfindSub (needle hay : List Char) (bound : ℕ) : Option ℕ :=
  ((List.range bound).filter
    (fun p => needle.isPrefixOf (hay.drop p) && decide (p + needle.length ≤ bound))).getLast?

/-- The horizontal-whitespace class `' \t'` of the deletion trimmer. -/
def isHorizWs (c : Char) : Bool := c == ' ' || c == '\t'

/-- The backward loop of `remove_block_with_whitespace` (source lines
1016-1018): extend left over spaces and tabs.  `content[start-1]` is
`content.getD (start-1)`; the default `'x'` is never hit since the loop stops
at `start = 0`. -/
def backHoriz (content : List Char) : ℕ → ℕ
  | 0 => 0
  | s+1 => if isHorizWs (content.getD s 'x') then backHoriz content s else s + 1

/-- Lines 1016-1020: the horizontal extension plus at most one preceding line
break (`start` of the source is `backHoriz content bs`). -/
def backExtend (content : List Char) (bs : ℕ) : ℕ :=
  if 0 < backHoriz content bs ∧ content.getD (backHoriz content bs - 1) 'x' = '\n'
  then backHoriz content bs - 1 else backHoriz content bs

/-- The forward loop of lines 1021-1023: extend right over spaces and tabs
(fuel `content.length` dominates the remaining distance to the end). -/
def fwdHoriz (content : List Char) : ℕ → ℕ → ℕ
  | 0, e => e
  | f+1, e =>
    if e < content.length ∧ isHorizWs (content.getD e 'x') then fwdHoriz content f (e+1)
    else e

/-- Lines 1021-1025: the forward extension plus at most one following line
break (`end` of the source is `fwdHoriz content content.length be`). -/
def fwdExtend (content : List Char) (be : ℕ) : ℕ :=
  if fwdHoriz content content.length be < content.length ∧
      content.getD (fwdHoriz content content.length be) 'x' = '\n'
  then fwdHoriz content content.length be + 1
  else fwdHoriz content content.length be

/-- `remove_block_with_whitespace` (source lines 1000-1026):
`content[:start] + content[end:]` for the extended bounds. -/
def remove_block_with_whitespace (content : List Char) (block_start block_end : ℕ) :
    List Char :=
  content.take (backExtend content block_start) ++ content.drop (fwdExtend content block_end)

/-- The key marker `(uuid "{u}")`. -/
def markerOf (u : List Char) : List Char := "(uuid \"".toList ++ u ++ "\")".toList

/-- `remove_by_uuid` (source lines 1091-1127): find the marker, search
backwards for the nearest `({element_type}` opener, scan that block, check the
key is inside it, and remove it with the surrounding whitespace. -/
def remove_by_uuid (content u element_type : List Char) : Except EditError (List Char) :=
  match findSub (markerOf u) content with
  | none => .error .keyNotFound
  | some pos =>
    match rfindSub ('(' :: element_type) content pos with
    | none => .error .parentBlockNotFound
    | some block_start =>
      match find_block content block_start with
      | .error e => .error e
      | .ok (block_text, block_end) =>
        if isSubstringOf u block_text then
          .ok (remove_block_with_whitespace content block_start block_end)
        else .error .keyNotInBlock

/-- All start positions of (possibly overlapping) occurrences of `needle`
in `hay`; used to state key-uniqueness hypotheses. -/
def occurrencesOf (needle hay : List Char) : List ℕ :=
  (List.range (hay.length + 1)).filter (fun p => needle.isPrefixOf (hay.drop p))

/-- A document whose unique key `ab` reappears in the deletion result by
juxtaposition: removing `(symbol (uuid "ab"))` glues `xa` to `by`. -/
def exC5 : List Char := "xa\n(symbol (uuid \"ab\"))\nby".toList

/-- `exC5` after `remove_by_uuid(·, "ab", "symbol")`. -/
def exC5' : List Char := "xaby".toList

/-- A well-behaved removal instance: key `k1`, unique and not recreated. -/
def exC5w : List Char := "(a)\n(symbol (uuid \"k1\"))\n(b)".toList

/-- `exC5w` after `remove_by_uuid(·, "k1", "symbol")` (the line break on each
side of the block's line is consumed, joining the neighbouring lines). -/
def exC5w' : List Char := "(a)(b)".toList

/-- A document whose located block is unterminated: `remove_by_uuid` fails
with the scanner's `UnbalancedBlock`, a fourth failure mode. -/
def exC6 : List Char := "(symbol (uuid \"K\")".toList

/-! ## SchematicBuilder (source lines 405-632), for `connect_pin`

Emitted artifacts (wires, labels, no-connect markers), which the source holds
as formatted S-expression strings, are modelled as records of the fields that
are interpolated into those strings; `uuid.uuid4()` fresh-identifier
generation is modelled by a supply counter carried in the builder state. -/

/-- `SymbolDef.get_pin` (source lines 147-152): first pin with the given
name. -/
def SymbolDef.get_pin (d : SymbolDef) (n : List Char) : Option PinDef :=
  d.pins.find? (fun p => p.name == n)

/-- `SymbolDef.get_pin_by_number` (source lines 158-163). -/
def SymbolDef.get_pin_by_number (d : SymbolDef) (n : List Char) : Option PinDef :=
  d.pins.find? (fun p => p.number == n)

/-- The `PlacedComponent` dataclass (source lines 405-418). -/
structure PlacedComponent where
  lib_id : List Char
  ref : List Char
  value : List Char
  x : ℚ
  y : ℚ
  rotation : ℤ
  footprint : List Char
  lcsc : List Char
  mirror_y : Bool
  unit : ℕ
  uuid : ℕ

/-- One emitted wire fragment (the fields of the template at lines
596-604). -/
structure WireRec where
  x1 : ℚ
  y1 : ℚ
  x2 : ℚ
  y2 : ℚ
  uid : ℕ

/-- One emitted net-label fragment (lines 609-615). -/
structure LabelRec where
  name : List Char
  x : ℚ
  y : ℚ
  angle : ℤ
  uid : ℕ

/-- One emitted no-connect fragment (lines 617-622). -/
structure NoConnectRec where
  x : ℚ
  y : ℚ
  uid : ℕ

/-- The `SchematicBuilder` state (source lines 430-442; the raw
`_lib_symbols_content` string and the free-text notes, which no modelled
operation touches, are omitted). -/
structure SchematicBuilder where
  symbol_lib : Option (List (List Char × SymbolDef))
  placed : List (List Char × PlacedComponent)
  components : List PlacedComponent
  wires : List WireRec
  labels : List LabelRec
  no_connects : List NoConnectRec
  pwr_sym_counter : ℕ
  flg_counter : ℕ
  uidSupply : ℕ

/-- `SchematicBuilder.wire` (source lines 596-604): snap all endpoints, skip
zero-length wires, append the fragment. -/
def SchematicBuilder.wire (b : SchematicBuilder) (x1 y1 x2 y2 : ℚ) :
    SchematicBuilder :=
  if snap x1 = snap x2 ∧ snap y1 = snap y2 then b
  else
    { b with
      wires := b.wires ++ [⟨snap x1, snap y1, snap x2, snap y2, b.uidSupply⟩],
      uidSupply := b.uidSupply + 1 }

/-- `SchematicBuilder.label` (source lines 609-615): snap the position,
append the fragment. -/
def SchematicBuilder.label (b : SchematicBuilder) (name : List Char) (x y : ℚ)
    (angle : ℤ) : SchematicBuilder :=
  { b with
    labels := b.labels ++ [⟨name, snap x, snap y, angle, b.uidSupply⟩],
    uidSupply := b.uidSupply + 1 }

/-- `SchematicBuilder.connect_pin` (source lines 527-575).  Each lookup miss
(unknown reference, no symbol library, unknown definition, unknown pin)
prints a diagnostic to stderr and returns without touching the state,
modelled as `.ok b`; an invalid stored rotation propagates `pin_abs`'s
error. -/
def SchematicBuilder.connect_pin (b : SchematicBuilder)
    (ref pin_name net_label : List Char) (wire_dx wire_dy : ℚ)
    (label_angle : ℤ) (by_number : Bool) : Except TransformError SchematicBuilder :=
  match lookupA b.placed ref with
  | none => .ok b
  | some comp =>
    match b.symbol_lib with
    | none => .ok b
    | some lib =>
      match SymbolLibrary_get lib comp.lib_id with
      | none => .ok b
      | some sym_def =>
        match (if by_number then sym_def.get_pin_by_number pin_name
               else sym_def.get_pin pin_name) with
        | none => .ok b
        | some pin =>
          match pin_abs comp.x comp.y pin.x pin.y comp.rotation comp.mirror_y with
          | .error e => .error e
          | .ok (abs_x, abs_y) =>
            if wire_dx ≠ 0 ∨ wire_dy ≠ 0 then
              .ok ((b.wire abs_x abs_y (snap (abs_x + wire_dx))
                      (snap (abs_y + wire_dy))).label
                    net_label (snap (abs_x + wire_dx)) (snap (abs_y + wire_dy))
                    label_angle)
            else .ok (b.label net_label abs_x abs_y label_angle)

/-- A one-pin resistor definition for the `connect_pin` witness. -/
def pinW : PinDef :=
  { name := "A".toList, number := "1".toList, x := 0, y := 2.54, angle := 270,
    length := 1.27, pin_type := "passive".toList }

/-- Witness symbol definition. -/
def symW : SymbolDef := ⟨"R".toList, [pinW]⟩

/-- Witness library. -/
def libW : List (List Char × SymbolDef) := [("R".toList, symW)]

/-- Witness placed component. -/
def compW : PlacedComponent :=
  { lib_id := "R".toList, ref := "R1".toList, value := "10k".toList, x := 0,
    y := 0, rotation := 0, footprint := [], lcsc := [], mirror_y := false,
    unit := 1, uuid := 0 }

/-- An empty builder (no placements registered). -/
def builderW0 : SchematicBuilder :=
  { symbol_lib := none, placed := [], components := [], wires := [],
    labels := [], no_connects := [], pwr_sym_counter := 0, flg_counter := 0,
    uidSupply := 0 }

/-- A builder with one placed component `R1` whose definition has a single
pin named `A`. -/
def builderW : SchematicBuilder :=
  { symbol_lib := some libW, placed := [("R1".toList, compW)],
    components := [compW], wires := [], labels := [], no_connects := [],
    pwr_sym_counter := 0, flg_counter := 0, uidSupply := 0 }

end KicadSch

namespace KicadSch

/-! ## Helper lemmas for grid math -/

theorem pyround_intCast (k : ℤ) : pyround (k : ℚ) = k := by
  simp [pyround]

theorem GRID_ne_zero : GRID ≠ 0 := by norm_num [GRID]

theorem snap_idem (v : ℚ) : snap (snap v) = snap v := by
  unfold snap
  rw [mul_div_cancel_right₀ _ GRID_ne_zero, pyround_intCast]

theorem pin_transform_invalid (px py : ℚ) (r : ℤ)
    (h0 : r ≠ 0) (h90 : r ≠ 90) (h180 : r ≠ 180) (h270 : r ≠ 270) :
    pin_transform px py r = .error .invalidRotation := by
  simp [pin_transform, h0, h90, h180, h270]

theorem pin_abs_ex1 :
    pin_abs 320 200 (-17.78) 25.40 0 false = .ok (302.26, 173.99) := by
  norm_num [pin_abs, pin_transform, snap, pyround, GRID]

theorem pin_abs_ex2 :
    pin_abs 320 200 0 2.54 90 false = .ok (322.58, 199.39) := by
  norm_num [pin_abs, pin_transform, snap, pyround, GRID]

/-- C1 (counterexample): the two concrete values asserted by the claim are not
what `pin_abs` returns.  `pin_abs(320,200,-17.78,25.40,0,false)` is
`(302.26, 173.99)`, not `(302.26, 174.63)` (the y-input `200 - 25.40 = 174.6`
snaps down to `137·1.27 = 173.99`, and `174.63` is not even a grid multiple);
`pin_abs(320,200,0,2.54,90,false)` is `(322.58, 199.39)`, not `(322.54, 200.0)`
(`320` itself is not grid-aligned, so both sums get moved by `snap`). -/
theorem claim_C1_counterexample :
    pin_abs 320 200 (-17.78) 25.40 0 false ≠ .ok ((302.26 : ℚ), (174.63 : ℚ)) ∧
    pin_abs 320 200 0 2.54 90 false ≠ .ok ((322.54 : ℚ), (200 : ℚ)) := by
  constructor
  · rw [pin_abs_ex1]
    intro h
    injection h with h
    have := congrArg Prod.snd h
    norm_num at this
  · rw [pin_abs_ex2]
    intro h
    injection h with h
    have := congrArg Prod.fst h
    norm_num at this

/-- C1 (amended): `pin_transform` maps `(px,py)` under rotation 0, 90, 180, 270
to `(px,-py)`, `(py,px)`, `(-px,py)`, `(-py,-px)` respectively; `pin_abs`
negates `px` when `mirror_y` is set, adds the transformed offset to `(sx,sy)`
and quantizes each component; in particular
`pin_abs(320,200,-17.78,25.40,0,false)` returns exactly `(302.26, 173.99)` and
`pin_abs(320,200,0,2.54,90,false)` returns exactly `(322.58, 199.39)`
(the claim's asserted values `(302.26,174.63)` and `(322.54,200.0)` are what
the source's own docstring/demo print, but not what the code computes). -/
theorem claim_C1 :
    (∀ px py : ℚ,
      pin_transform px py 0 = .ok (px, -py) ∧
      pin_transform px py 90 = .ok (py, px) ∧
      pin_transform px py 180 = .ok (-px, py) ∧
      pin_transform px py 270 = .ok (-py, -px)) ∧
    (∀ (sx sy px py : ℚ) (r : ℤ),
      pin_abs sx sy px py r true = pin_abs sx sy (-px) py r false) ∧
    (∀ (sx sy px py : ℚ) (r : ℤ),
      pin_abs sx sy px py r false =
        (pin_transform px py r).map fun d => (snap (sx + d.1), snap (sy + d.2))) ∧
    pin_abs 320 200 (-17.78) 25.40 0 false = .ok (302.26, 173.99) ∧
    pin_abs 320 200 0 2.54 90 false = .ok (322.58, 199.39) := by
  refine ⟨?_, ?_, ?_, pin_abs_ex1, pin_abs_ex2⟩
  · intro px py
    refine ⟨?_, ?_, ?_, ?_⟩ <;> norm_num [pin_transform]
  · intro sx sy px py r
    simp [pin_abs]
  · intro sx sy px py r
    cases h : pin_transform px py r with
    | ok d => simp [pin_abs, h, Except.map]
    | error e => simp [pin_abs, h, Except.map]

/-- C4: quantization is idempotent (`snap (snap v) = snap v`) and `snap v` is
always an exact integer multiple of the grid constant `GRID = 1.27`
(exactly, since coordinates are modelled as rationals). -/
theorem claim_C4 :
    ∀ v : ℚ, snap (snap v) = snap v ∧ ∃ k : ℤ, snap v = k * GRID :=
  fun v => ⟨snap_idem v, pyround (v / GRID), rfl⟩

/-- C7: `pin_transform` fails with `InvalidRotation` for every rotation outside
`{0, 90, 180, 270}`; `pin_abs` propagates this failure; and every rotation in
that set succeeds (rotation admits exactly these four values). -/
theorem claim_C7 :
    (∀ (px py : ℚ) (r : ℤ), r ≠ 0 → r ≠ 90 → r ≠ 180 → r ≠ 270 →
      pin_transform px py r = .error .invalidRotation) ∧
    (∀ (sx sy px py : ℚ) (r : ℤ) (m : Bool), r ≠ 0 → r ≠ 90 → r ≠ 180 → r ≠ 270 →
      pin_abs sx sy px py r m = .error .invalidRotation) ∧
    (∀ (px py : ℚ) (r : ℤ), (r = 0 ∨ r = 90 ∨ r = 180 ∨ r = 270) →
      ∃ d, pin_transform px py r = .ok d) := by
  refine ⟨fun px py r h0 h90 h180 h270 => pin_transform_invalid px py r h0 h90 h180 h270,
    ?_, ?_⟩
  · intro sx sy px py r m h0 h90 h180 h270
    simp [pin_abs, pin_transform_invalid _ _ _ h0 h90 h180 h270]
  · intro px py r hr
    rcases hr with h | h | h | h <;> subst h
    · exact ⟨(px, -py), by norm_num [pin_transform]⟩
    · exact ⟨(py, px), by norm_num [pin_transform]⟩
    · exact ⟨(-px, py), by norm_num [pin_transform]⟩
    · exact ⟨(-py, -px), by norm_num [pin_transform]⟩

/-- C7 witness: the three parts of `claim_C7` at rotation `45` (invalid) and
`90` (valid). -/
theorem claim_C7_witness :
    pin_transform 1 2 45 = .error .invalidRotation ∧
    pin_abs 320 200 1 2 45 false = .error .invalidRotation ∧
    ∃ d, pin_transform 1 2 90 = .ok d :=
  ⟨claim_C7.1 1 2 45 (by norm_num) (by norm_num) (by norm_num) (by norm_num),
   claim_C7.2.1 320 200 1 2 45 false (by norm_num) (by norm_num) (by norm_num) (by norm_num),
   claim_C7.2.2 1 2 90 (Or.inr (Or.inl rfl))⟩

/-- C2: the block scanner is quote-safe.  First conjunct: while the in-string
flag is set, a delimiter character `'('` or `')'` is skipped without changing
the depth counter (one scanning step is a pure index advance).  Second
conjunct: scanning `(symbol "a)b" (pin))` from index 0 returns the full outer
block spanning the whole 20-character text, not a span ending at the `')'`
inside the quotes. -/
theorem claim_C2 :
    (∀ (content : List Char) (fuel i : ℕ) (depth : ℤ) (sp : ℕ)
      (h : i < content.length),
      (content.get ⟨i, h⟩ = '(' ∨ content.get ⟨i, h⟩ = ')') →
      find_block_loop content (fuel+1) i depth true sp
        = find_block_loop content fuel (i+1) depth true sp) ∧
    find_block exC2 0 = .ok (exC2, 20) := by
  constructor
  · intro content fuel i depth sp h hc
    have hne : content.get ⟨i, h⟩ ≠ '"' := by
      rcases hc with hc | hc <;> rw [hc] <;> decide
    have hq : ¬(content.get ⟨i, h⟩ = '"' ∧ (i = 0 ∨ content.getD (i-1) ' ' ≠ '\\')) :=
      fun hp => hne hp.1
    simp only [find_block_loop, dif_pos h]
    rw [if_neg hq]
    simp
  · decide

/-- C2 witness: the in-string step rule applied at index 10 of the example
document (the `')'` inside the quoted string), plus the concrete scan. -/
theorem claim_C2_witness :
    find_block_loop exC2 6 10 1 true 0 = find_block_loop exC2 5 11 1 true 0 ∧
    find_block exC2 0 = .ok (exC2, 20) :=
  ⟨claim_C2.1 exC2 5 10 1 0 (by decide) (Or.inr (by decide)), claim_C2.2⟩

/-! ## Lemmas about the Python string primitives -/

theorem sub_false_head {needle : List Char} {c : Char} {rest : List Char}
    (h : isSubstringOf needle (c :: rest) = false) :
    needle.isPrefixOf (c :: rest) = false ∧ isSubstringOf needle rest = false := by
  simpa [isSubstringOf] using h

theorem sub_false_front {needle hay : List Char}
    (h : isSubstringOf needle hay = false) :
    ¬(needle.isPrefixOf hay = true ∧ needle ≠ []) := by
  cases hay with
  | nil =>
    rintro ⟨hp, hne⟩
    cases needle with
    | nil => exact hne rfl
    | cons p ps => simp [List.isPrefixOf] at hp
  | cons c rest =>
    rintro ⟨hp, -⟩
    rw [(sub_false_head h).1] at hp
    cases hp

theorem replaceAll_not_sub (f : ℕ) (needle repl hay : List Char)
    (h : isSubstringOf needle hay = false) :
    replaceAll f needle repl hay = hay := by
  induction f generalizing hay with
  | zero => rfl
  | succ f ih =>
    simp only [replaceAll]
    rw [if_neg (sub_false_front h)]
    cases hay with
    | nil => rfl
    | cons c rest =>
      show c :: replaceAll f needle repl rest = c :: rest
      rw [ih rest (sub_false_head h).2]

theorem countOccur_not_sub (f : ℕ) (needle hay : List Char)
    (h : isSubstringOf needle hay = false) :
    countOccur f needle hay = 0 := by
  induction f generalizing hay with
  | zero => rfl
  | succ f ih =>
    simp only [countOccur]
    rw [if_neg (sub_false_front h)]
    cases hay with
    | nil => rfl
    | cons c rest =>
      show countOccur f needle rest = 0
      exact ih rest (sub_false_head h).2

/-- C9 (counterexample): the returned count does not equal the number of
substitutions performed.  On a document containing the definition-key pattern
`(symbol "A"` twice, `replace_lib_id` rewrites both occurrences but returns
count `1`. -/
theorem claim_C9_counterexample :
    replace_lib_id exC9 ['A'] ['B'] = (exC9', 1) ∧
    countOccur exC9.length (sym_key_pat ['A']) exC9 = 2 ∧
    countOccur exC9'.length (sym_key_pat ['A']) exC9' = 0 ∧
    (1 : ℕ) ≠ 2 := by decide

/-- C9 (amended): `replace_lib_id` replaces the identifier only in its two
recognized syntactic positions (no blind global replace: a document containing
neither pattern is returned unchanged with count `0`), and the returned count
equals the number of `(lib_id "old")` attribute substitutions plus one if the
`(symbol "old"` definition-key pattern was present (the key replacement is
counted once even when several key occurrences are rewritten). -/
theorem claim_C9 :
    ∀ content old_id new_id : List Char,
      ((replace_lib_id content old_id new_id).2 =
        countOccur content.length (lib_id_pat old_id) content +
          (if isSubstringOf (sym_key_pat old_id)
              (replaceAll content.length (lib_id_pat old_id) (lib_id_pat new_id) content)
            then 1 else 0)) ∧
      (isSubstringOf (lib_id_pat old_id) content = false →
       isSubstringOf (sym_key_pat old_id) content = false →
       replace_lib_id content old_id new_id = (content, 0)) := by
  intro content old_id new_id
  constructor
  · by_cases h : isSubstringOf (sym_key_pat old_id)
        (replaceAll content.length (lib_id_pat old_id) (lib_id_pat new_id) content) = true
    · simp [replace_lib_id, h]
    · rw [Bool.not_eq_true] at h
      simp [replace_lib_id, h]
  · intro h1 h2
    have e1 : replaceAll content.length (lib_id_pat old_id) (lib_id_pat new_id) content
        = content := replaceAll_not_sub _ _ _ _ h1
    simp [replace_lib_id, e1, h2, countOccur_not_sub _ _ _ h1]

/-- C9 witness: `claim_C9` at a document containing neither pattern. -/
theorem claim_C9_witness :
    ((replace_lib_id "hello".toList ['A'] ['B']).2 =
      countOccur ("hello".toList).length (lib_id_pat ['A']) "hello".toList +
        (if isSubstringOf (sym_key_pat ['A'])
            (replaceAll ("hello".toList).length (lib_id_pat ['A']) (lib_id_pat ['B'])
              "hello".toList)
          then 1 else 0)) ∧
    replace_lib_id "hello".toList ['A'] ['B'] = ("hello".toList, 0) :=
  ⟨(claim_C9 "hello".toList ['A'] ['B']).1,
   (claim_C9 "hello".toList ['A'] ['B']).2 (by decide) (by decide)⟩

set_option maxRecDepth 40000 in
/-- C8: on the document with identifiers `C_RX1B_N`, `R1`, `J_PWR` (with
`J_PWR` in two instance positions), `fix_annotation_suffixes` reports exactly
`["C_RX1B_N", "J_PWR"]` as changed, uniqued and in sorted order, appends `"1"`
in both the property and the instance positions of each changed identifier,
and leaves every occurrence of `R1` untouched. -/
theorem claim_C8 :
    fix_annot_suffixes exC8 = (exC8', ["C_RX1B_N".toList, "J_PWR".toList]) := by
  decide

set_option maxRecDepth 40000 in
/-- C3: parsing the document `exC3` (top-level definition `Foo` containing
nested sub-part blocks `Foo_0_1` and `Foo_1_1`) yields a library with exactly
one definition, keyed `Foo`, no entry keyed by a `_<int>_<int>`-suffixed name,
and `Foo`'s pin list contains exactly the two well-formed pin declarations
found inside the nested `Foo_1_1` sub-block.  The last three conjuncts check
the sub-part predicate itself on the three names. -/
theorem claim_C3 :
    SymbolLibrary_parse exC3 =
      [("Foo".toList,
        { name := "Foo".toList, pins := [mkPinDef exC3_pinA, mkPinDef exC3_pinB] })] ∧
    lookupA (SymbolLibrary_parse exC3) "Foo_0_1".toList = none ∧
    lookupA (SymbolLibrary_parse exC3) "Foo_1_1".toList = none ∧
    isSubPartName "Foo_0_1".toList = true ∧
    isSubPartName "Foo_1_1".toList = true ∧
    isSubPartName "Foo".toList = false := by
  have h : parseLinesF (splitOnNl exC3).length (splitOnNl exC3) []
      = [("Foo".toList, ⟨"Foo".toList, [exC3_pinA, exC3_pinB]⟩)] := by decide
  have h1 : SymbolLibrary_parse exC3 =
      [("Foo".toList,
        { name := "Foo".toList, pins := [mkPinDef exC3_pinA, mkPinDef exC3_pinB] })] := by
    show (parseLinesF (splitOnNl exC3).length (splitOnNl exC3) []).map
        (fun kv => (kv.1, toSymbolDef kv.2)) = _
    rw [h]
    rfl
  refine ⟨h1, ?_, ?_, by decide, by decide, by decide⟩
  · rw [h1]
    rfl
  · rw [h1]
    rfl

/-- C5 (counterexample): deletion can recreate the key by juxtaposition.  In
`exC5` the key `ab` occurs exactly once (inside the removed block), yet the
result of `remove_by_uuid` still contains `ab`, glued together from the text
before and after the deleted span. -/
theorem claim_C5_counterexample :
    remove_by_uuid exC5 "ab".toList "symbol".toList = .ok exC5' ∧
    (occurrencesOf "ab".toList exC5).length = 1 ∧
    isSubstringOf "ab".toList exC5' = true := by decide

/-- C6 (counterexample): `remove_by_uuid` has a fourth structural failure
mode.  On a document whose located block is unterminated it fails with the
scanner's `UnbalancedBlock`, which is none of the three cases the claim
enumerates. -/
theorem claim_C6_counterexample :
    remove_by_uuid exC6 ['K'] "symbol".toList = .error .unbalanced ∧
    EditError.unbalanced ≠ EditError.keyNotFound ∧
    EditError.unbalanced ≠ EditError.parentBlockNotFound ∧
    EditError.unbalanced ≠ EditError.keyNotInBlock := by decide

/-! ## Lemmas about the block scanner and backward search -/

theorem find_block_loop_error_unbalanced (content : List Char) :
    ∀ (fuel i : ℕ) (depth : ℤ) (instr : Bool) (sp : ℕ) (e : EditError),
    find_block_loop content fuel i depth instr sp = .error e → e = .unbalanced := by
  intro fuel
  induction fuel with
  | zero =>
    intro i depth instr sp e h
    simp only [find_block_loop] at h
    injection h with h
    exact h.symm
  | succ f ih =>
    intro i depth instr sp e h
    simp only [find_block_loop] at h
    split at h
    · split at h
      · exact ih _ _ _ _ _ h
      · split at h
        · exact ih _ _ _ _ _ h
        · split at h
          · split at h
            · cases h
            · exact ih _ _ _ _ _ h
          · exact ih _ _ _ _ _ h
    · injection h with h
      exact h.symm

theorem rfindSub_some {needle hay : List Char} {bound p : ℕ}
    (h : rfindSub needle hay bound = some p) :
    needle.isPrefixOf (hay.drop p) = true ∧ p + needle.length ≤ bound := by
  have hm : p ∈ (List.range bound).filter
      (fun q => needle.isPrefixOf (hay.drop q) && decide (q + needle.length ≤ bound)) :=
    List.mem_of_mem_getLast? h
  have hmf := (List.mem_filter.mp hm).2
  have hb := Bool.and_eq_true_iff.mp hmf
  exact ⟨hb.1, of_decide_eq_true hb.2⟩

theorem prefix_drop_head {c : Char} {etype hay : List Char} {p : ℕ}
    (h : (c :: etype).isPrefixOf (hay.drop p) = true) :
    ∃ hlt : p < hay.length, hay.get ⟨p, hlt⟩ = c := by
  cases hd : hay.drop p with
  | nil => rw [hd] at h; simp [List.isPrefixOf] at h
  | cons x xs =>
    rw [hd] at h
    have hx : c = x := by
      simp [List.isPrefixOf] at h
      exact h.1
    have hlt : p < hay.length := by
      by_contra hge
      push_neg at hge
      rw [List.drop_eq_nil_of_le hge] at hd
      cases hd
    refine ⟨hlt, ?_⟩
    have hdg : hay.drop p = hay.get ⟨p, hlt⟩ :: hay.drop (p+1) := by
      simp only [List.get_eq_getElem]
      exact List.drop_eq_getElem_cons hlt
    rw [hdg] at hd
    injection hd with h1 _
    rw [h1, hx]

theorem find_block_error_of_paren {content etype : List Char} {bs : ℕ} {e : EditError}
    (hpre : (('(' : Char) :: etype).isPrefixOf (content.drop bs) = true)
    (h : find_block content bs = .error e) : e = .unbalanced := by
  obtain ⟨hlt, hget⟩ := prefix_drop_head hpre
  unfold find_block at h
  rw [dif_pos hlt, if_neg (fun hne => hne hget)] at h
  exact find_block_loop_error_unbalanced content _ _ _ _ _ _ h

/-- C6 (amended): `remove_by_uuid` fails (returning an error and no modified
document) in exactly four structural cases: `KeyNotFound` iff the key marker
is absent; `ParentBlockNotFound` iff the marker is present but no opening
token of the requested kind occurs before it; `KeyNotInBlock` iff the block
located by the backward search scans successfully but does not contain the
key; and additionally the scanner's `UnbalancedBlock`, propagated when the
located block is unterminated.  Every failure is one of these four. -/
theorem claim_C6 :
    ∀ content u etype : List Char,
    (remove_by_uuid content u etype = .error .keyNotFound ↔
      findSub (markerOf u) content = none) ∧
    (remove_by_uuid content u etype = .error .parentBlockNotFound ↔
      ∃ pos, findSub (markerOf u) content = some pos ∧
        rfindSub ('(' :: etype) content pos = none) ∧
    (remove_by_uuid content u etype = .error .keyNotInBlock ↔
      ∃ pos bs blk be, findSub (markerOf u) content = some pos ∧
        rfindSub ('(' :: etype) content pos = some bs ∧
        find_block content bs = .ok (blk, be) ∧
        isSubstringOf u blk = false) ∧
    (∀ e, remove_by_uuid content u etype = .error e →
      e = .keyNotFound ∨ e = .parentBlockNotFound ∨ e = .keyNotInBlock ∨
        e = .unbalanced) := by
  intro content u etype
  rcases hf : findSub (markerOf u) content with _ | pos
  · have hre : remove_by_uuid content u etype = .error .keyNotFound := by
      simp [remove_by_uuid, hf]
    refine ⟨by simp [hre, hf], by simp [hre, hf], by simp [hre, hf], ?_⟩
    intro e he
    rw [hre] at he
    injection he with he
    exact Or.inl he.symm
  · rcases hrf : rfindSub ('(' :: etype) content pos with _ | bs
    · have hre : remove_by_uuid content u etype = .error .parentBlockNotFound := by
        simp [remove_by_uuid, hf, hrf]
      refine ⟨by simp [hre, hf], by simp [hre, hf, hrf], by simp [hre, hf, hrf], ?_⟩
      intro e he
      rw [hre] at he
      injection he with he
      exact Or.inr (Or.inl he.symm)
    · rcases hfb : find_block content bs with e' | pair
      · have he' : e' = .unbalanced :=
          find_block_error_of_paren (rfindSub_some hrf).1 hfb
        subst he'
        have hre : remove_by_uuid content u etype = .error .unbalanced := by
          simp [remove_by_uuid, hf, hrf, hfb]
        refine ⟨by simp [hre, hf], by simp [hre, hf, hrf],
          by simp [hre, hf, hrf, hfb], ?_⟩
        intro e he
        rw [hre] at he
        injection he with he
        exact Or.inr (Or.inr (Or.inr he.symm))
      · obtain ⟨blk, be⟩ := pair
        by_cases hsub : isSubstringOf u blk = true
        · have hre : remove_by_uuid content u etype
              = .ok (remove_block_with_whitespace content bs be) := by
            simp [remove_by_uuid, hf, hrf, hfb, hsub]
          refine ⟨by simp [hre, hf], by simp [hre, hf, hrf],
            by simp [hre, hf, hrf, hfb, hsub], ?_⟩
          intro e he
          rw [hre] at he
          cases he
        · rw [Bool.not_eq_true] at hsub
          have hre : remove_by_uuid content u etype = .error .keyNotInBlock := by
            simp [remove_by_uuid, hf, hrf, hfb, hsub]
          refine ⟨by simp [hre, hf], by simp [hre, hf, hrf],
            by simp [hre, hf, hrf, hfb, hsub], ?_⟩
          intro e he
          rw [hre] at he
          injection he with he
          exact Or.inr (Or.inr (Or.inl he.symm))

/-- C6 witness: the `KeyNotFound` and `ParentBlockNotFound` characterizations
of `claim_C6` applied at concrete documents. -/
theorem claim_C6_witness :
    remove_by_uuid "xyz".toList ['K'] "symbol".toList = .error .keyNotFound ∧
    remove_by_uuid "z(uuid \"K\")".toList ['K'] "symbol".toList
      = .error .parentBlockNotFound :=
  ⟨(claim_C6 "xyz".toList ['K'] "symbol".toList).1.mpr (by decide),
   (claim_C6 "z(uuid \"K\")".toList ['K'] "symbol".toList).2.1.mpr
     ⟨1, by decide, by decide⟩⟩

/-! ## Lemmas for the deletion span (claim C5) -/

theorem find_block_loop_ok (content : List Char) :
    ∀ (fuel i : ℕ) (depth : ℤ) (instr : Bool) (sp : ℕ) (t : List Char) (ed : ℕ),
    find_block_loop content fuel i depth instr sp = .ok (t, ed) →
    i < ed ∧ ed ≤ content.length ∧ t = (content.drop sp).take (ed - sp) := by
  intro fuel
  induction fuel with
  | zero =>
    intro i depth instr sp t ed h
    simp only [find_block_loop] at h
    cases h
  | succ f ih =>
    intro i depth instr sp t ed h
    simp only [find_block_loop] at h
    split at h
    case isTrue hlt =>
      split at h
      · have hr := ih _ _ _ _ _ _ h
        exact ⟨by omega, hr.2⟩
      · split at h
        · have hr := ih _ _ _ _ _ _ h
          exact ⟨by omega, hr.2⟩
        · split at h
          · split at h
            · injection h with h
              injection h with h1 h2
              subst h2
              exact ⟨by omega, by omega, h1.symm⟩
            · have hr := ih _ _ _ _ _ _ h
              exact ⟨by omega, hr.2⟩
          · have hr := ih _ _ _ _ _ _ h
            exact ⟨by omega, hr.2⟩
    case isFalse => cases h

theorem find_block_ok {content : List Char} {sp : ℕ} {t : List Char} {ed : ℕ}
    (h : find_block content sp = .ok (t, ed)) :
    sp < ed ∧ ed ≤ content.length ∧ t = (content.drop sp).take (ed - sp) := by
  unfold find_block at h
  split at h
  case isTrue hlt =>
    split at h
    · cases h
    · exact find_block_loop_ok content _ _ _ _ _ _ _ h
  case isFalse => cases h

theorem isHorizWs_cases {c : Char} (h : isHorizWs c = true) : c = ' ' ∨ c = '\t' := by
  simpa [isHorizWs] using h

theorem backHoriz_le (content : List Char) : ∀ n, backHoriz content n ≤ n := by
  intro n
  induction n with
  | zero => simp [backHoriz]
  | succ s ih =>
    simp only [backHoriz]
    split
    · exact le_trans ih (Nat.le_succ s)
    · exact le_refl _

theorem backHoriz_ws (content : List Char) :
    ∀ n j, backHoriz content n ≤ j → j < n → isHorizWs (content.getD j 'x') = true := by
  intro n
  induction n with
  | zero => intro j h1 h2; omega
  | succ s ih =>
    intro j h1 h2
    simp only [backHoriz] at h1
    split at h1
    case isTrue hc =>
      rcases Nat.lt_succ_iff_lt_or_eq.mp h2 with h | h
      · exact ih j h1 h
      · subst h; exact hc
    case isFalse hc => omega

theorem backExtend_le (content : List Char) (bs : ℕ) : backExtend content bs ≤ bs := by
  unfold backExtend
  split
  · have := backHoriz_le content bs
    omega
  · exact backHoriz_le content bs

theorem backExtend_ws (content : List Char) (bs : ℕ) :
    ∀ j, backExtend content bs ≤ j → j < bs →
      content.getD j 'x' = ' ' ∨ content.getD j 'x' = '\t' ∨
        content.getD j 'x' = '\n' := by
  intro j h1 h2
  unfold backExtend at h1
  split at h1
  case isTrue hc =>
    by_cases hj : backHoriz content bs ≤ j
    · rcases isHorizWs_cases (backHoriz_ws content bs j hj h2) with h | h
      · exact Or.inl h
      · exact Or.inr (Or.inl h)
    · have hje : j = backHoriz content bs - 1 := by omega
      rw [hje]
      exact Or.inr (Or.inr hc.2)
  case isFalse hc =>
    rcases isHorizWs_cases (backHoriz_ws content bs j h1 h2) with h | h
    · exact Or.inl h
    · exact Or.inr (Or.inl h)

theorem backExtend_ws_strict (content : List Char) (bs : ℕ) :
    ∀ j, backExtend content bs < j → j < bs →
      content.getD j 'x' = ' ' ∨ content.getD j 'x' = '\t' := by
  intro j h1 h2
  unfold backExtend at h1
  have hbj : backHoriz content bs ≤ j := by
    split at h1 <;> omega
  exact isHorizWs_cases (backHoriz_ws content bs j hbj h2)

theorem fwdHoriz_ge (content : List Char) : ∀ f e, e ≤ fwdHoriz content f e := by
  intro f
  induction f with
  | zero => intro e; simp [fwdHoriz]
  | succ f ih =>
    intro e
    simp only [fwdHoriz]
    split
    · exact le_trans (Nat.le_succ e) (ih (e+1))
    · exact le_refl _

theorem fwdHoriz_ws (content : List Char) :
    ∀ f e j, e ≤ j → j < fwdHoriz content f e →
      isHorizWs (content.getD j 'x') = true := by
  intro f
  induction f with
  | zero =>
    intro e j h1 h2
    simp only [fwdHoriz] at h2
    omega
  | succ f ih =>
    intro e j h1 h2
    simp only [fwdHoriz] at h2
    split at h2
    case isTrue hc =>
      rcases eq_or_lt_of_le h1 with h | h
      · rw [← h]; exact hc.2
      · exact ih (e+1) j h h2
    case isFalse hc => omega

theorem fwdHoriz_le_len (content : List Char) :
    ∀ f e, e ≤ content.length → fwdHoriz content f e ≤ content.length := by
  intro f
  induction f with
  | zero => intro e he; simpa [fwdHoriz] using he
  | succ f ih =>
    intro e he
    simp only [fwdHoriz]
    split
    case isTrue hc => exact ih (e+1) hc.1
    case isFalse => exact he

theorem fwdExtend_ge (content : List Char) (be : ℕ) : be ≤ fwdExtend content be := by
  unfold fwdExtend
  have := fwdHoriz_ge content content.length be
  split <;> omega

theorem fwdExtend_le_len (content : List Char) (be : ℕ) (h : be ≤ content.length) :
    fwdExtend content be ≤ content.length := by
  unfold fwdExtend
  have := fwdHoriz_le_len content content.length be h
  split
  case isTrue hc => omega
  case isFalse => exact this

theorem fwdExtend_ws (content : List Char) (be : ℕ) :
    ∀ j, be ≤ j → j < fwdExtend content be →
      content.getD j 'x' = ' ' ∨ content.getD j 'x' = '\t' ∨
        content.getD j 'x' = '\n' := by
  intro j h1 h2
  unfold fwdExtend at h2
  split at h2
  case isTrue hc =>
    by_cases hj : j < fwdHoriz content content.length be
    · rcases isHorizWs_cases (fwdHoriz_ws content content.length be j h1 hj) with h | h
      · exact Or.inl h
      · exact Or.inr (Or.inl h)
    · have : j = fwdHoriz content content.length be := by omega
      rw [this]
      exact Or.inr (Or.inr hc.2)
  case isFalse hc =>
    rcases isHorizWs_cases (fwdHoriz_ws content content.length be j h1 h2) with h | h
    · exact Or.inl h
    · exact Or.inr (Or.inl h)

theorem fwdExtend_ws_strict (content : List Char) (be : ℕ) :
    ∀ j, be ≤ j → j + 1 < fwdExtend content be →
      content.getD j 'x' = ' ' ∨ content.getD j 'x' = '\t' := by
  intro j h1 h2
  have hj : j < fwdHoriz content content.length be := by
    unfold fwdExtend at h2
    split at h2 <;> omega
  exact isHorizWs_cases (fwdHoriz_ws content content.length be j h1 hj)

theorem occ_mem {u hay : List Char} {p : ℕ} :
    p ∈ occurrencesOf u hay ↔ p ≤ hay.length ∧ u.isPrefixOf (hay.drop p) = true := by
  unfold occurrencesOf
  rw [List.mem_filter, List.mem_range]
  simp [Nat.lt_succ_iff]

theorem occ_unique {u hay : List Char} (h : (occurrencesOf u hay).length = 1)
    {p q : ℕ} (hp : p ∈ occurrencesOf u hay) (hq : q ∈ occurrencesOf u hay) :
    p = q := by
  obtain ⟨a, ha⟩ := List.length_eq_one.mp h
  rw [ha, List.mem_singleton] at hp hq
  rw [hp, hq]

theorem isPrefixOf_of_take {u l : List Char} {n : ℕ}
    (h : u.isPrefixOf (l.take n) = true) : u.isPrefixOf l = true := by
  rw [List.isPrefixOf_iff_prefix] at h ⊢
  exact h.trans (List.take_prefix n l)

theorem isSubstringOf_exists {u hay : List Char} (h : isSubstringOf u hay = true) :
    ∃ q, u.isPrefixOf (hay.drop q) = true ∧ q + u.length ≤ hay.length := by
  induction hay with
  | nil =>
    simp only [isSubstringOf, List.isEmpty_iff] at h
    subst h
    exact ⟨0, by simp [List.isPrefixOf], by simp⟩
  | cons c rest ih =>
    simp only [isSubstringOf, Bool.or_eq_true] at h
    rcases h with h | h
    · refine ⟨0, by simpa using h, ?_⟩
      have := (List.isPrefixOf_iff_prefix.mp h).length_le
      simpa using this
    · obtain ⟨q, hq1, hq2⟩ := ih h
      refine ⟨q+1, by simpa using hq1, by simp; omega⟩

theorem isSubstringOf_of_occ {u hay : List Char} {q : ℕ}
    (h : u.isPrefixOf (hay.drop q) = true) : isSubstringOf u hay = true := by
  induction hay generalizing q with
  | nil =>
    have : u = [] := by
      cases u with
      | nil => rfl
      | cons a as => simp [List.drop_nil, List.isPrefixOf] at h
    simp [isSubstringOf, this]
  | cons c rest ih =>
    cases q with
    | zero =>
      simp only [isSubstringOf, Bool.or_eq_true]
      exact Or.inl h
    | succ q =>
      simp only [isSubstringOf, Bool.or_eq_true]
      exact Or.inr (ih (by simpa using h))

/-- C5 (amended): when `remove_by_uuid` succeeds on a document in which the
key `u` occurs exactly once, the deleted span is exactly the block located by
the backward search plus its surrounding horizontal whitespace and at most
one adjoining line break on each side (conjuncts 7-10: every trimmed
character is whitespace, and a line break can only be the outermost trimmed
character on each side); every byte outside that span is unchanged
(conjuncts 11-12); and the key is absent from the preserved prefix and the
preserved suffix individually — though, as `claim_C5_counterexample` shows,
an occurrence of the key can still be created across the splice junction, so
the claim's unqualified "the result no longer contains K" is false. -/
theorem claim_C5 :
    ∀ content u etype result : List Char,
      remove_by_uuid content u etype = .ok result →
      (occurrencesOf u content).length = 1 →
      u ≠ [] →
      ∃ bs be blk,
        find_block content bs = .ok (blk, be) ∧
        isSubstringOf u blk = true ∧
        result = content.take (backExtend content bs)
          ++ content.drop (fwdExtend content be) ∧
        backExtend content bs ≤ bs ∧
        be ≤ fwdExtend content be ∧
        fwdExtend content be ≤ content.length ∧
        (∀ j, backExtend content bs ≤ j → j < bs →
          content.getD j 'x' = ' ' ∨ content.getD j 'x' = '\t' ∨
            content.getD j 'x' = '\n') ∧
        (∀ j, backExtend content bs < j → j < bs →
          content.getD j 'x' = ' ' ∨ content.getD j 'x' = '\t') ∧
        (∀ j, be ≤ j → j < fwdExtend content be →
          content.getD j 'x' = ' ' ∨ content.getD j 'x' = '\t' ∨
            content.getD j 'x' = '\n') ∧
        (∀ j, be ≤ j → j + 1 < fwdExtend content be →
          content.getD j 'x' = ' ' ∨ content.getD j 'x' = '\t') ∧
        (∀ j, j < backExtend content bs → result[j]? = content[j]?) ∧
        (∀ j, result[backExtend content bs + j]?
          = content[fwdExtend content be + j]?) ∧
        isSubstringOf u (content.take (backExtend content bs)) = false ∧
        isSubstringOf u (content.drop (fwdExtend content be)) = false := by
  intro content u etype result hok huniq hne
  rcases hf : findSub (markerOf u) content with _ | pos
  · have hre : remove_by_uuid content u etype = .error .keyNotFound := by
      simp [remove_by_uuid, hf]
    rw [hre] at hok; cases hok
  rcases hrf : rfindSub ('(' :: etype) content pos with _ | bs
  · have hre : remove_by_uuid content u etype = .error .parentBlockNotFound := by
      simp [remove_by_uuid, hf, hrf]
    rw [hre] at hok; cases hok
  rcases hfb : find_block content bs with e' | pair
  · have hre : remove_by_uuid content u etype = .error e' := by
      simp [remove_by_uuid, hf, hrf, hfb]
    rw [hre] at hok; cases hok
  obtain ⟨blk, be⟩ := pair
  by_cases hsub : isSubstringOf u blk = true
  case neg =>
    rw [Bool.not_eq_true] at hsub
    have hre : remove_by_uuid content u etype = .error .keyNotInBlock := by
      simp [remove_by_uuid, hf, hrf, hfb, hsub]
    rw [hre] at hok; cases hok
  have hres : result = remove_block_with_whitespace content bs be := by
    have hre : remove_by_uuid content u etype
        = .ok (remove_block_with_whitespace content bs be) := by
      simp [remove_by_uuid, hf, hrf, hfb, hsub]
    rw [hre] at hok
    injection hok with h
    exact h.symm
  obtain ⟨hbse, hbele, hblk⟩ := find_block_ok hfb
  obtain ⟨q, hq1, hq2⟩ := isSubstringOf_exists hsub
  have hblen : blk.length ≤ be - bs := by
    rw [hblk, List.length_take]
    omega
  have hp0pre : u.isPrefixOf (content.drop (bs + q)) = true := by
    rw [hblk, List.drop_take] at hq1
    have := isPrefixOf_of_take hq1
    rwa [List.drop_drop] at this
  have hul : 0 < u.length := List.length_pos.mpr hne
  have hp0mem : (bs + q) ∈ occurrencesOf u content :=
    occ_mem.mpr ⟨by omega, hp0pre⟩
  have hp0ub : (bs + q) + u.length ≤ be := by omega
  have hsbs := backExtend_le content bs
  have hbsl : bs < content.length := lt_of_lt_of_le hbse hbele
  have hslen : (content.take (backExtend content bs)).length = backExtend content bs := by
    rw [List.length_take]
    omega
  refine ⟨bs, be, blk, hfb, hsub, by rw [hres]; rfl, hsbs, fwdExtend_ge content be,
    fwdExtend_le_len content be hbele, backExtend_ws content bs,
    backExtend_ws_strict content bs, fwdExtend_ws content be,
    fwdExtend_ws_strict content be, ?_, ?_, ?_, ?_⟩
  · intro j hj
    rw [hres]
    unfold remove_block_with_whitespace
    rw [List.getElem?_append_left (by omega)]
    exact List.getElem?_take_of_lt hj
  · intro j
    rw [hres]
    unfold remove_block_with_whitespace
    rw [List.getElem?_append_right (by omega), hslen, List.getElem?_drop]
    congr 1
    omega
  · by_contra hT
    rw [Bool.not_eq_false] at hT
    obtain ⟨q', h1, h2⟩ := isSubstringOf_exists hT
    rw [hslen] at h2
    have hq'pre : u.isPrefixOf (content.drop q') = true := by
      rw [List.drop_take] at h1
      exact isPrefixOf_of_take h1
    have hq'mem : q' ∈ occurrencesOf u content :=
      occ_mem.mpr ⟨by omega, hq'pre⟩
    have heq := occ_unique huniq hq'mem hp0mem
    omega
  · by_contra hT
    rw [Bool.not_eq_false] at hT
    obtain ⟨q', h1, h2⟩ := isSubstringOf_exists hT
    rw [List.drop_drop] at h1
    rw [List.length_drop] at h2
    have hq'mem : (fwdExtend content be + q') ∈ occurrencesOf u content :=
      occ_mem.mpr ⟨by omega, h1⟩
    have heq := occ_unique huniq hq'mem hp0mem
    have hbefe := fwdExtend_ge content be
    omega

/-- C5 witness: `claim_C5` at a concrete removal whose key `k1` occurs
exactly once. -/
theorem claim_C5_witness :
    ∃ bs be blk,
      find_block exC5w bs = .ok (blk, be) ∧
      isSubstringOf "k1".toList blk = true ∧
      exC5w' = exC5w.take (backExtend exC5w bs) ++ exC5w.drop (fwdExtend exC5w be) ∧
      backExtend exC5w bs ≤ bs ∧
      be ≤ fwdExtend exC5w be ∧
      fwdExtend exC5w be ≤ exC5w.length ∧
      (∀ j, backExtend exC5w bs ≤ j → j < bs →
        exC5w.getD j 'x' = ' ' ∨ exC5w.getD j 'x' = '\t' ∨ exC5w.getD j 'x' = '\n') ∧
      (∀ j, backExtend exC5w bs < j → j < bs →
        exC5w.getD j 'x' = ' ' ∨ exC5w.getD j 'x' = '\t') ∧
      (∀ j, be ≤ j → j < fwdExtend exC5w be →
        exC5w.getD j 'x' = ' ' ∨ exC5w.getD j 'x' = '\t' ∨ exC5w.getD j 'x' = '\n') ∧
      (∀ j, be ≤ j → j + 1 < fwdExtend exC5w be →
        exC5w.getD j 'x' = ' ' ∨ exC5w.getD j 'x' = '\t') ∧
      (∀ j, j < backExtend exC5w bs → exC5w'[j]? = exC5w[j]?) ∧
      (∀ j, exC5w'[backExtend exC5w bs + j]?
        = exC5w[fwdExtend exC5w be + j]?) ∧
      isSubstringOf "k1".toList (exC5w.take (backExtend exC5w bs)) = false ∧
      isSubstringOf "k1".toList (exC5w.drop (fwdExtend exC5w be)) = false :=
  claim_C5 exC5w "k1".toList "symbol".toList exC5w' (by decide) (by decide) (by decide)

/-- C10: `connect_pin` with an unregistered instance id, or with a pin
selector that resolves to no pin of the instance's definition, is a no-op up
to a diagnostic: no error is raised (the result is `.ok`) and the builder
state — placed instances, emitted components, wires, labels, no-connect
markers and counters — is returned exactly as it was. -/
theorem claim_C10 :
    ∀ (b : SchematicBuilder) (ref pin_name net_label : List Char)
      (wire_dx wire_dy : ℚ) (label_angle : ℤ) (by_number : Bool),
      (lookupA b.placed ref = none →
        b.connect_pin ref pin_name net_label wire_dx wire_dy label_angle by_number
          = .ok b) ∧
      (∀ comp lib sym_def,
        lookupA b.placed ref = some comp →
        b.symbol_lib = some lib →
        SymbolLibrary_get lib comp.lib_id = some sym_def →
        (if by_number then sym_def.get_pin_by_number pin_name
         else sym_def.get_pin pin_name) = none →
        b.connect_pin ref pin_name net_label wire_dx wire_dy label_angle by_number
          = .ok b) := by
  intro b ref pin_name net_label wire_dx wire_dy label_angle by_number
  constructor
  · intro h
    simp [SchematicBuilder.connect_pin, h]
  · intro comp lib sym_def h1 h2 h3 h4
    simp [SchematicBuilder.connect_pin, h1, h2, h3, h4]

/-- C10 witness: `claim_C10` applied to a builder with no placements (unknown
id `U1`) and to a builder whose `R1` definition has no pin named `NOPE`. -/
theorem claim_C10_witness :
    builderW0.connect_pin "U1".toList "A".toList "NET".toList 0 0 0 false
      = .ok builderW0 ∧
    builderW.connect_pin "R1".toList "NOPE".toList "NET".toList 0 0 0 false
      = .ok builderW :=
  ⟨(claim_C10 builderW0 "U1".toList "A".toList "NET".toList 0 0 0 false).1 rfl,
   (claim_C10 builderW "R1".toList "NOPE".toList "NET".toList 0 0 0 false).2
     compW libW symW rfl rfl rfl rfl⟩

end KicadSch
